import Mathlib

/-!
Verification development for `FAISSDocumentStore`
(`src/haystack/document_store/faiss.py`).

The store pairs an append-only FAISS vector index (modelled here as an
exact flat inner-product index over integer-valued vectors) with a SQL
metadata store (modelled as a per-namespace list of documents).  Python
exceptions are modelled with `Except PyErr`; each `PyErr` constructor
corresponds to one kind of exception the code can raise.
-/

namespace HF

/-- Kinds of Python exceptions the code under study can raise. -/
inductive PyErr where
  | indexError
  | keyError
  | valueError (msg : String)
  | exceptionError (msg : String)
  | npAmbiguous
  | npConversion
  | dimMismatch
  | integrityError
deriving DecidableEq

/-- The FAISS index of a namespace: a configured dimension and the list of
stored vectors in insertion order (the exact, flat, inner-product topology
that `faiss_index_factory_str="Flat"` builds). `vector_id` is a position in
`vectors`. -/
structure FaissIndex where
  d : Nat
  vectors : List (List Int)
deriving DecidableEq

/-- Embeds `_create_new_index` (faiss.py lines 105-119) for the default flat
factory: a fresh empty index of the given dimension. -/
def newIndex (d : Nat) : FaissIndex := ⟨d, []⟩

/-- `faiss.Index.ntotal`: the number of stored vectors. -/
def FaissIndex.ntotal (ix : FaissIndex) : Nat := ix.vectors.length

/-- Inner product of two vectors (`faiss.METRIC_INNER_PRODUCT`). -/
def ipScore (q v : List Int) : Int := (List.zipWith (· * ·) q v).sum

/-- `faiss.Index.add`: appends the rows, after the wrapper's dimension
check against the configured dimension. -/
def FaissIndex.add (ix : FaissIndex) (embs : List (List Int)) :
    Except PyErr FaissIndex :=
  if embs.all (fun e => e.length == ix.d) then .ok ⟨ix.d, ix.vectors ++ embs⟩
  else .error .dimMismatch

/-- Search ordering on `(score, vector_id)` pairs: strictly larger scores
first, ties broken by smaller id. -/
def searchRel : (Int × Int) → (Int × Int) → Prop :=
  fun a b => b.1 < a.1 ∨ (a.1 = b.1 ∧ a.2 ≤ b.2)

instance : DecidableRel searchRel := fun a b => by unfold searchRel; infer_instance

instance : IsTotal (Int × Int) searchRel where
  total a b := by
    unfold searchRel
    rcases lt_trichotomy a.1 b.1 with h | h | h
    · exact Or.inr (Or.inl h)
    · rcases le_total a.2 b.2 with h2 | h2
      · exact Or.inl (Or.inr ⟨h, h2⟩)
      · exact Or.inr (Or.inr ⟨h.symm, h2⟩)
    · exact Or.inl (Or.inl h)

instance : IsTrans (Int × Int) searchRel where
  trans a b c hab hbc := by
    unfold searchRel at hab hbc ⊢
    rcases hab with h | ⟨he, hi⟩
    · rcases hbc with h2 | ⟨he2, _⟩
      · exact Or.inl (h2.trans h)
      · exact Or.inl (he2 ▸ h)
    · rcases hbc with h2 | ⟨he2, hi2⟩
      · exact Or.inl (he ▸ h2)
      · exact Or.inr ⟨he.trans he2, hi.trans hi2⟩

/-- The score FAISS reports on padding slots of an inner-product search
(the most negative representable float; its exact value is never observed
because padded slots carry the sentinel id `-1`). -/
def sentinelScore : Int := -(2 ^ 127)

/-- Every stored vector scored against the query, as `(score, vector_id)`
pairs in storage order. -/
def searchBase (ix : FaissIndex) (q : List Int) : List (Int × Int) :=
  ix.vectors.enum.map (fun p => (ipScore q p.2, (p.1 : Int)))

/-- The scored pairs in the order an inner-product search reports them:
descending score, ties by smaller id. -/
def searchSorted (ix : FaissIndex) (q : List Int) : List (Int × Int) :=
  List.insertionSort searchRel (searchBase ix q)

/-- `faiss.Index.search` for a single query on a flat inner-product index:
all stored vectors scored by inner product, sorted descending, the top `k`
returned; when fewer than `k` vectors are stored the result is padded to
length `k` with sentinel id `-1`.  Returns `(scores, ids)` — the two
matrices of faiss.py line 357, restricted to their single row. -/
def FaissIndex.search (ix : FaissIndex) (q : List Int) (k : Nat) :
    List Int × List Int :=
  (((searchSorted ix q).take k).map Prod.fst
     ++ List.replicate (k - ((searchSorted ix q).take k).length) sentinelScore,
   ((searchSorted ix q).take k).map Prod.snd
     ++ List.replicate (k - ((searchSorted ix q).take k).length) (-1))

/-- `faiss.Index.reconstruct`: the stored vector at a given id. -/
def FaissIndex.reconstruct (ix : FaissIndex) (vid : Nat) : Option (List Int) :=
  ix.vectors.get? vid

/-- A haystack `Document`: id, text, open metadata, the reserved
`meta["vector_id"]` slot (kept as its own field), the optional embedding,
and the transient query `score`. -/
structure Doc where
  id : String
  text : String
  meta : List (String × String)
  vectorId : Option Nat
  embedding : Option (List Int)
  score : Option Int
deriving DecidableEq

/-- The `FAISSDocumentStore` state: configuration plus the name-indexed
FAISS registry (`self.faiss_indexes`) and the SQL store contents, one
document list per (SQL) index name. -/
structure Store where
  vector_dim : Nat
  faiss_index_factory_str : String
  faiss_indexes : List (String × FaissIndex)
  sql : List (String × List Doc)
  index : String
  return_embedding : Bool
  update_existing_documents : Bool
  similarity : String
deriving DecidableEq

/-- First-match association lookup (Python `dict.get`). -/
def alookup {β : Type} (k : String) : List (String × β) → Option β
  | [] => none
  | p :: ps => if p.1 = k then some p.2 else alookup k ps

/-- Association update (Python `dict.__setitem__`). -/
def aset {β : Type} (l : List (String × β)) (k : String) (v : β) :
    List (String × β) :=
  if (alookup k l).isSome then
    l.map (fun p => if p.1 = k then (k, v) else p)
  else l ++ [(k, v)]

def faissAt (st : Store) (i : String) : Option FaissIndex :=
  alookup i st.faiss_indexes

/-- Size of the namespace's FAISS index; `0` when none has been created yet
(`write_documents` creates an empty one on first use). -/
def ntotalAt (st : Store) (i : String) : Nat :=
  ((faissAt st i).map FaissIndex.ntotal).getD 0

def vectorsAt (st : Store) (i : String) : List (List Int) :=
  ((faissAt st i).map FaissIndex.vectors).getD []

/-- The SQL store's document list for a namespace. -/
def sqlNs (st : Store) (i : String) : List Doc :=
  (alookup i st.sql).getD []

/-- `np.array(embeddings, dtype="float32")` over a list of per-document
embeddings: fails if a document carries no embedding (a `None` row) or the
rows are ragged; otherwise yields the stacked rows. -/
def npStack (embs : List (Option (List Int))) : Except PyErr (List (List Int)) :=
  if embs.any (fun e => e.isNone) then .error .npConversion
  else
    match embs.map (fun e => e.getD []) with
    | [] => .ok []
    | r0 :: rs =>
      if (r0 :: rs).all (fun r => r.length == r0.length) then .ok (r0 :: rs)
      else .error .npConversion

/-- What the SQL store keeps of a document: text and metadata but neither
the embedding (vectors live only in FAISS) nor the transient score. -/
def stripForSql (d : Doc) : Doc := { d with embedding := none, score := none }

/-- Modelled from the spec: the MetadataStore `write` operation for a single
document (`SQLDocumentStore.write_documents` is not part of `src/`).  Per the
configuration surface, `update_existing_documents` governs whether re-writing
a known id overwrites the stored document or raises. -/
def sqlWriteOne (ue : Bool) (ns : List Doc) (d : Doc) : Except PyErr (List Doc) :=
  if ns.any (fun x => x.id == d.id) then
    if ue then .ok (ns.map (fun x => if x.id == d.id then stripForSql d else x))
    else .error .integrityError
  else .ok (ns ++ [stripForSql d])

/-- Modelled from the spec: the MetadataStore `write` operation on a batch,
documents written in order. -/
def sqlWriteMany (ue : Bool) (ns : List Doc) : List Doc → Except PyErr (List Doc)
  | [] => .ok ns
  | d :: ds =>
    match sqlWriteOne ue ns d with
    | .error e => .error e
    | .ok ns' => sqlWriteMany ue ns' ds

/-- Stamping of faiss.py lines 158-163: each document in turn gets
`meta["vector_id"]` set to the running counter, which then increments. -/
def stampFrom (vid : Nat) : List Doc → List Doc
  | [] => []
  | d :: ds => { d with vectorId := some vid } :: stampFrom (vid + 1) ds

/-- The consecutive `batch_size`-slices `docs[i : i + batch_size]` of the
loops at faiss.py lines 151 and 215 (`range(0, len, bs)` slicing and
`get_batches_from_generator` produce the same pages).  A zero `bs` yields no
slices (`islice(it, 0)` is immediately empty; the `range` caller rejects a
zero step before ever slicing).  The `fuel` argument only makes the
recursion structural; callers supply `fuel = l.length`, so the
fuel-exhausted equation is unreachable. -/
def splitIntoBatches (bs : Nat) : Nat → List α → List (List α)
  | _, [] => []
  | 0, _ :: _ => []
  | fuel + 1, x :: xs =>
    if bs = 0 then []
    else (x :: xs).take bs :: splitIntoBatches bs fuel ((x :: xs).drop bs)

/-- The chunked loop of `write_documents` (faiss.py lines 151-165) over the
precomputed `batch_size`-slices: for each slice, if the batch was judged
embedding-bearing, stack the slice's embeddings, add them to the FAISS
index and stamp running vector ids; then forward the slice to the SQL
write. -/
def writeLoop (addV ue : Bool) :
    List (List Doc) → FaissIndex → Nat → List Doc →
    Except PyErr (FaissIndex × List Doc)
  | [], ix, _, ns => .ok (ix, ns)
  | chunk :: rest, ix, vid, ns =>
    match (if addV then
        match npStack (chunk.map (fun x => x.embedding)) with
        | .error e => .error e
        | .ok rows => ix.add rows
      else .ok ix : Except PyErr FaissIndex) with
    | .error e => .error e
    | .ok ix' =>
      match sqlWriteMany ue ns (if addV then stampFrom vid chunk else chunk) with
      | .error e => .error e
      | .ok ns' =>
        writeLoop addV ue rest ix' (if addV then vid + chunk.length else vid) ns'

/-- Embeds `FAISSDocumentStore.write_documents` (faiss.py lines 121-165).
The namespace's FAISS index is created lazily (lines 135-138); whether the
batch carries vectors is decided from the first document alone (line 143,
an `IndexError` on an empty batch); a zero `batch_size` is the `range()`
step-zero `ValueError` of line 151; the running vector id starts at the
index's current size (line 150); then the chunked loop runs. -/
def write_documents (st : Store) (documents : List Doc)
    (indexOpt : Option String) (batch_size : Nat) : Except PyErr Store :=
  let index := indexOpt.getD st.index
  let reg :=
    if (alookup index st.faiss_indexes).isSome then st.faiss_indexes
    else aset st.faiss_indexes index (newIndex st.vector_dim)
  match documents with
  | [] => .error .indexError
  | d0 :: _ =>
    let add_vectors := d0.embedding.isSome
    if batch_size = 0 then .error (.valueError "range() arg 3 must not be zero")
    else
      match alookup index reg with
      | none => .error .keyError
      | some ix =>
        match writeLoop add_vectors st.update_existing_documents
            (splitIntoBatches batch_size documents.length documents)
            ix ix.ntotal (sqlNs st index) with
        | .error e => .error e
        | .ok (ix', ns') =>
          .ok { st with
                 faiss_indexes := aset reg index ix',
                 sql := aset st.sql index ns' }

/-- Does a document carry the given (possibly sentinel) vector id? -/
def hasVid (v : Int) (d : Doc) : Bool :=
  match d.vectorId with
  | some w => (w : Int) == v
  | none => false

/-- Modelled from the spec: the MetadataStore id-batch lookup
(`SQLDocumentStore.get_documents_by_vector_ids` is not part of `src/`): for
each requested vector id, in request order, the namespace's documents
carrying that id. -/
def getDocumentsByVectorIds (ns : List Doc) (vids : List Int) : List Doc :=
  (vids.map (fun v => ns.filter (hasVid v))).flatten

/-- Last-wins association lookup over integer keys: Python dict built by a
comprehension keeps the last value written for a key. -/
def dictLookup (pairs : List (Int × Int)) (v : Int) : Option Int :=
  match pairs.reverse.find? (fun p => p.1 == v) with
  | some p => some p.2
  | none => none

/-- The per-document part of faiss.py lines 364-368: attach the search score
for the document's `meta["vector_id"]` from the id-to-score dict, and, when
embeddings were requested, the reconstructed vector. -/
def attachScore (pairs : List (Int × Int)) (re : Bool) (ix : FaissIndex)
    (doc : Doc) : Except PyErr Doc :=
  match doc.vectorId with
  | none => .error .keyError
  | some w =>
    match dictLookup pairs (w : Int) with
    | none => .error .keyError
    | some s =>
      if re then
        match ix.reconstruct w with
        | some vec => .ok { doc with score := some s, embedding := some vec }
        | none => .error (.exceptionError "reconstruct")
      else .ok { doc with score := some s }

/-- Error-propagating map, in list order (the mutation loop of faiss.py
lines 364-368 visits the resolved documents in order). -/
def mapME (f : α → Except PyErr β) : List α → Except PyErr (List β)
  | [] => .ok []
  | a :: as =>
    match f a with
    | .error e => .error e
    | .ok b =>
      match mapME f as with
      | .error e => .error e
      | .ok bs => .ok (b :: bs)

/-- Embeds `FAISSDocumentStore.query_by_embedding` (faiss.py lines 327-370).
Metadata filters are ignored with a warning; a missing index raises; the
query is searched, sentinel `-1` ids are dropped, surviving ids are resolved
to documents, and scores (and optionally reconstructed embeddings) are
attached. -/
def query_by_embedding (st : Store) (query_emb : List Int)
    (filters : Option (List (String × List String))) (top_k : Nat)
    (indexOpt : Option String) (return_embedding : Option Bool) :
    Except PyErr (List Doc) :=
  let index := indexOpt.getD st.index
  match alookup index st.faiss_indexes with
  | none => .error (.exceptionError
      "Index does not exist. Use update_embeddings to create an index.")
  | some ix =>
    let re := return_embedding.getD st.return_embedding
    if query_emb.length ≠ ix.d then .error .dimMismatch
    else
      let sr := ix.search query_emb top_k
      let vector_ids_for_query := sr.2.filter (fun v => v != -1)
      let documents := getDocumentsByVectorIds (sqlNs st index) vector_ids_for_query
      let pairs := sr.2.zip sr.1
      mapME (attachScore pairs re ix) documents

/-- Whether a document matches a metadata filter set.  Modelled from the
spec: each filter key constrains the field to one of the listed values. -/
def metaMatches (filters : Option (List (String × List String))) (d : Doc) : Bool :=
  match filters with
  | none => true
  | some fs => fs.all (fun kv =>
      (d.meta.filter (fun p => p.1 == kv.1)).any (fun p => kv.2.contains p.2))

/-- Modelled from the spec: the MetadataStore filtered retrieval used by
`update_embeddings` (`SQLDocumentStore._query` is not part of `src/`):
documents of the namespace matching the filter, restricted to those without
a `vector_id` when `only_documents_without_embedding` is set. -/
def sqlQuery (ns : List Doc) (filters : Option (List (String × List String)))
    (onlyWithoutEmbedding : Bool) : List Doc :=
  ns.filter (fun d => metaMatches filters d
    && (!onlyWithoutEmbedding || d.vectorId.isNone))

/-- The eligible-document count as claim C6 words it (for comparison with
what the code computes): scoped by the filter predicate and, when
`update_existing_embeddings` is false, restricted to documents lacking a
`vector_id`. -/
def specEligibleCount (st : Store) (i : String)
    (filters : Option (List (String × List String)))
    (update_existing_embeddings : Bool) : Nat :=
  ((sqlNs st i).filter (fun d => metaMatches filters d
    && (update_existing_embeddings || d.vectorId.isNone))).length

/-- Modelled from the spec: the MetadataStore `update_vector_ids` operation
(`SQLDocumentStore.update_vector_ids` is not part of `src/`): persist the
stamped ids for exactly the documents named in the mapping. -/
def updateVectorIds (vmap : List (String × Nat)) (ns : List Doc) : List Doc :=
  ns.map (fun d =>
    match alookup d.id vmap with
    | some v => { d with vectorId := some v }
    | none => d)

/-- The batch loop of `update_embeddings` (faiss.py lines 216-229): embed
each page, add the vectors to the index, extend the id map from the running
counter, and persist the page's vector ids. -/
def updateLoop (embed : Doc → List Int) (ix : FaissIndex) (vid : Nat)
    (ns : List Doc) : List (List Doc) → Except PyErr (FaissIndex × List Doc)
  | [] => .ok (ix, ns)
  | batch :: rest =>
    let rows := batch.map embed
    match ix.add rows with
    | .error e => .error e
    | .ok ix' =>
      let vmap := batch.enum.map (fun p => (p.2.id, vid + p.1))
      updateLoop embed ix' (vid + batch.length) (updateVectorIds vmap ns) rest

/-- Embeds `FAISSDocumentStore.update_embeddings` (faiss.py lines 172-230).
The retriever is modelled as a per-document embedding function.  The second
component of the result records whether the "empty index" warning of line
202 was logged. -/
def update_embeddings (st : Store) (embed : Doc → List Int)
    (indexOpt : Option String) (update_existing_embeddings : Bool)
    (filters : Option (List (String × List String))) (batch_size : Nat) :
    Except PyErr (Store × Bool) :=
  let index := indexOpt.getD st.index
  match alookup index st.faiss_indexes with
  | none => .error (.valueError
      "Couldn't find a FAISS index. Try to init the FAISSDocumentStore() again ...")
  | some ix =>
    let document_count := (sqlNs st index).length
    if document_count = 0 then .ok (st, true)
    else
      let result := sqlQuery (sqlNs st index) filters (!update_existing_embeddings)
      let batches := splitIntoBatches batch_size result.length result
      match updateLoop embed ix ix.ntotal (sqlNs st index) batches with
      | .error e => .error e
      | .ok (ix', ns') =>
        .ok ({ st with
                faiss_indexes := aset st.faiss_indexes index ix',
                sql := aset st.sql index ns' }, false)

/-- Embeds `FAISSDocumentStore.get_all_documents_generator` (faiss.py lines
245-275), fully materialized: documents stream from the SQL store without
embeddings; when embeddings are requested, each document carrying a
`vector_id` gets the reconstructed vector attached as it is yielded. -/
def get_all_documents_generator (st : Store) (indexOpt : Option String)
    (filters : Option (List (String × List String)))
    (return_embedding : Option Bool) (batch_size : Nat) :
    Except PyErr (List Doc) :=
  let index := indexOpt.getD st.index
  let docs := (sqlNs st index).filter (metaMatches filters)
  let re := return_embedding.getD st.return_embedding
  mapME (fun doc =>
    if re then
      match doc.vectorId with
      | some w =>
        match alookup index st.faiss_indexes with
        | none => .error .keyError
        | some ix =>
          match ix.reconstruct w with
          | some vec => .ok { doc with embedding := some vec }
          | none => .error (.exceptionError "reconstruct")
      | none => .ok doc
    else .ok doc) docs

/-- Embeds `FAISSDocumentStore.get_all_documents` (faiss.py lines 232-243):
the generator called with the same arguments, materialized with `list()`. -/
def get_all_documents (st : Store) (indexOpt : Option String)
    (filters : Option (List (String × List String)))
    (return_embedding : Option Bool) (batch_size : Nat) :
    Except PyErr (List Doc) :=
  get_all_documents_generator st indexOpt filters return_embedding batch_size

/-- Total number of elements of a 2-D numpy array (`ndarray.size`). -/
def npSize (a : List (List Int)) : Nat := (a.map List.length).sum

/-- Python truthiness of an optional numpy array, as evaluated by
`if embeddings` / `if embeddings and documents`: `None` is falsy; an empty
array is falsy; a one-element array has the truth value of its element; any
larger array raises numpy's ambiguity `ValueError`. -/
def pyTruthyNp : Option (List (List Int)) → Except PyErr Bool
  | none => .ok false
  | some a =>
    if npSize a = 0 then .ok false
    else if npSize a = 1 then .ok (a.flatten != [0])
    else .error .npAmbiguous

/-- `faiss.Index.train` on a flat index: the wrapper's dimension check, then
a no-op (flat indexes need no training). -/
def faissTrain (ix : FaissIndex) (rows : List (List Int)) :
    Except PyErr FaissIndex :=
  if rows.all (fun r => r.length == ix.d) then .ok ix else .error .dimMismatch

/-- Embeds `FAISSDocumentStore.train_index` (faiss.py lines 288-314).
`if embeddings and documents:` first evaluates the numpy truthiness of
`embeddings`; both truthy raises the configuration `ValueError`; then each
truthy input in turn is stacked and handed to the index's `train`, looked up
without lazy creation (a missing index is a `KeyError`). -/
def train_index (st : Store) (documents : Option (List Doc))
    (embeddings : Option (List (List Int))) (indexOpt : Option String) :
    Except PyErr Store :=
  let index := indexOpt.getD st.index
  match pyTruthyNp embeddings with
  | .error e => .error e
  | .ok eb =>
    let db := match documents with
      | none => false
      | some ds => !ds.isEmpty
    if eb && db then
      .error (.valueError "Either pass `documents` or `embeddings`. You passed both.")
    else
      match (if db then
          match npStack ((documents.getD []).map (fun d => d.embedding)) with
          | .error e => .error e
          | .ok rows =>
            match alookup index st.faiss_indexes with
            | none => .error .keyError
            | some ix => faissTrain ix rows
        else .ok (newIndex 0) : Except PyErr FaissIndex) with
      | .error e => .error e
      | .ok _ =>
        if eb then
          match alookup index st.faiss_indexes with
          | none => .error .keyError
          | some ix =>
            match faissTrain ix (embeddings.getD []) with
            | .error e => .error e
            | .ok _ => .ok st
        else .ok st

/-- The observable construction steps of `FAISSDocumentStore.__init__`,
in execution order. -/
inductive InitEvent where
  | createdIndex
  | registeredProvidedIndex
  | raisedSimilarity
  | connectedSql
deriving DecidableEq

/-- Embeds `FAISSDocumentStore.__init__` (faiss.py lines 33-103) together
with its ordered trace of observable steps: the FAISS index for the default
namespace is created (or the provided one registered) at lines 83-88,
*then* the similarity kind is checked at lines 92-96 (raising `ValueError`
for anything but `"dot_product"`), and only then the SQL side is connected. -/
def initRun (vector_dim : Nat) (factory : String)
    (faiss_index : Option FaissIndex) (return_embedding : Bool)
    (update_existing_documents : Bool) (index : String) (similarity : String) :
    List InitEvent × Except PyErr Store :=
  let (ev1, reg) :=
    match faiss_index with
    | some ix => ([InitEvent.registeredProvidedIndex], [(index, ix)])
    | none => ([InitEvent.createdIndex], [(index, newIndex vector_dim)])
  if similarity = "dot_product" then
    (ev1 ++ [InitEvent.connectedSql],
     .ok ⟨vector_dim, factory, reg, [], index, return_embedding,
          update_existing_documents, similarity⟩)
  else
    (ev1 ++ [InitEvent.raisedSimilarity],
     .error (.valueError
       "The FAISS document store can currently only support dot_product similarity."))

deriving instance DecidableEq for Except

/-- Dimension the namespace's index has, or would be created with. -/
def dAt (st : Store) (i : String) : Nat :=
  ((faissAt st i).map FaissIndex.d).getD st.vector_dim

/-- The logistic squashing `scipy.special.expit`. -/
noncomputable def expit (x : ℝ) : ℝ := 1 / (1 + Real.exp (-x))

/-- The probability attached at faiss.py line 366:
`doc.probability = float(expit(np.asarray(doc.score / 100)))`. -/
noncomputable def attachedProbability (score : Int) : ℝ :=
  expit ((score : ℝ) / 100)

/-- Is this error one of the deliberately raised configuration
`ValueError`s (the spec's `ConfigurationError` kind)? -/
def PyErr.isConfigErr : PyErr → Bool
  | .valueError _ => true
  | _ => false

/-! ### Concrete inputs used by witnesses and counterexamples -/

/-- A freshly constructed store: dimension 2, empty flat index for the
default `"document"` namespace, empty SQL store. -/
def exStore : Store :=
  { vector_dim := 2, faiss_index_factory_str := "Flat",
    faiss_indexes := [("document", newIndex 2)], sql := [],
    index := "document", return_embedding := false,
    update_existing_documents := false, similarity := "dot_product" }

def docA : Doc := ⟨"a", "text a", [], none, none, none⟩
def docB : Doc := ⟨"b", "text b", [], none, some [1, 0], none⟩
def docC : Doc := ⟨"c", "text c", [], none, some [0, 1], none⟩
def docE3 : Doc := ⟨"e", "text e", [], none, some [1, 2, 3], none⟩

/-- `exStore` after `write_documents [docB, docC]`: both vectors indexed,
both documents stamped with their vector ids. -/
def exStoreBC : Store :=
  { exStore with
      faiss_indexes := [("document", ⟨2, [[1, 0], [0, 1]]⟩)],
      sql := [("document",
        [⟨"b", "text b", [], some 0, none, none⟩,
         ⟨"c", "text c", [], some 1, none, none⟩])] }

/-- `exStore` after `write_documents [docA, docC]` (bare first document):
no vector indexed, nothing stamped. -/
def exStoreAC : Store :=
  { exStore with
      sql := [("document",
        [⟨"a", "text a", [], none, none, none⟩,
         ⟨"c", "text c", [], none, none, none⟩])] }

/-- `exStore` after `write_documents [docC]`. -/
def exStoreC : Store :=
  { exStore with
      faiss_indexes := [("document", ⟨2, [[0, 1]]⟩)],
      sql := [("document", [⟨"c", "text c", [], some 0, none, none⟩])] }

/-- A store holding one vector and one document already stamped with
`vector_id = 0`. -/
def exStoreA0 : Store :=
  { exStore with
      faiss_indexes := [("document", ⟨2, [[1, 0]]⟩)],
      sql := [("document", [⟨"a", "text a", [], some 0, none, none⟩])] }

/-! ### Basic lemmas about the registry and SQL helpers -/

theorem alookup_aset_self {β : Type} (l : List (String × β)) (k : String) (v : β) :
    alookup k (aset l k v) = some v := by
  unfold aset
  split
  next h =>
    induction l with
    | nil => simp [alookup] at h
    | cons p ps ih =>
      by_cases hp : p.1 = k
      · simp [alookup, hp]
      · simp only [alookup, hp, if_false] at h
        simpa [alookup, hp] using ih h
  next h =>
    induction l with
    | nil => simp [alookup]
    | cons p ps ih =>
      by_cases hp : p.1 = k
      · exact absurd (by simp [alookup, hp]) h
      · simp only [alookup, hp, if_false] at h
        simpa [alookup, hp] using ih h

theorem ntotalAt_eq_length_vectorsAt (st : Store) (i : String) :
    ntotalAt st i = (vectorsAt st i).length := by
  unfold ntotalAt vectorsAt FaissIndex.ntotal
  cases faissAt st i <;> simp

theorem stampFrom_length (v : Nat) (l : List Doc) :
    (stampFrom v l).length = l.length := by
  induction l generalizing v with
  | nil => rfl
  | cons d ds ih => simp [stampFrom, ih]

theorem stampFrom_append (v : Nat) (a b : List Doc) :
    stampFrom v (a ++ b) = stampFrom v a ++ stampFrom (v + a.length) b := by
  induction a generalizing v with
  | nil => simp [stampFrom]
  | cons d ds ih =>
    simp only [List.cons_append, stampFrom, List.length_cons]
    rw [show ds.append b = ds ++ b from rfl, ih (v + 1),
      show v + 1 + ds.length = v + (ds.length + 1) from by omega]

theorem stampFrom_vectorIds (v : Nat) (l : List Doc) :
    (stampFrom v l).map (fun d => d.vectorId)
      = (List.range l.length).map (fun i => some (v + i)) := by
  induction l generalizing v with
  | nil => rfl
  | cons d ds ih =>
    simp only [stampFrom, List.map_cons, List.length_cons, List.range_succ_eq_map,
      List.map_map, ih (v + 1), List.cons.injEq]
    refine ⟨by simp, List.map_congr_left ?_⟩
    intro i _
    simp only [Function.comp_apply, Option.some.injEq]
    omega

theorem stampFrom_mem (v : Nat) (l : List Doc) (d : Doc) (hd : d ∈ stampFrom v l) :
    ∃ i, i < l.length ∧ d.vectorId = some (v + i) := by
  induction l generalizing v with
  | nil => simp [stampFrom] at hd
  | cons x xs ih =>
    simp only [stampFrom, List.mem_cons] at hd
    rcases hd with hd | hd
    · exact ⟨0, by simp, by simp [hd]⟩
    · obtain ⟨i, hi, hvi⟩ := ih (v + 1) hd
      exact ⟨i + 1, by simpa using hi, by rw [hvi]; exact congrArg some (by omega)⟩

theorem sqlWriteMany_append (ue : Bool) (ns a b : List Doc) :
    sqlWriteMany ue ns (a ++ b) =
      match sqlWriteMany ue ns a with
      | .error e => .error e
      | .ok ns1 => sqlWriteMany ue ns1 b := by
  induction a generalizing ns with
  | nil => simp [sqlWriteMany]
  | cons d ds ih =>
    simp only [List.cons_append, sqlWriteMany]
    cases sqlWriteOne ue ns d with
    | error e => rfl
    | ok ns' => exact ih ns'

theorem npStack_ok (embs : List (Option (List Int))) (rows : List (List Int))
    (h : npStack embs = .ok rows) : rows = embs.map (fun e => e.getD []) := by
  unfold npStack at h
  split at h
  · exact absurd h (by simp)
  · split at h
    next heq =>
      injection h with h'
      rw [← h']
      exact heq.symm
    next r0 rs heq =>
      split at h
      · injection h with h'
        rw [← h']
        exact heq.symm
      · exact absurd h (by simp)

theorem add_ok (ix : FaissIndex) (rows : List (List Int)) (ix' : FaissIndex)
    (h : ix.add rows = .ok ix') :
    ix' = ⟨ix.d, ix.vectors ++ rows⟩ := by
  unfold FaissIndex.add at h
  split at h
  · cases h; rfl
  · exact absurd h (by simp)

/-! ### Characterization of a successful `write_documents` -/

theorem flatten_splitIntoBatches (bs : Nat) (hbs : 1 ≤ bs) :
    ∀ (fuel : Nat) (l : List α), l.length ≤ fuel →
      (splitIntoBatches bs fuel l).flatten = l := by
  intro fuel
  induction fuel with
  | zero =>
    intro l hlen
    match l with
    | [] => rfl
    | x :: xs => simp at hlen
  | succ fuel ih =>
    intro l hlen
    match l with
    | [] => rfl
    | x :: xs =>
      have hbs0 : ¬bs = 0 := by omega
      have hd : ((x :: xs).drop bs).length ≤ fuel := by
        simp only [List.length_drop, List.length_cons]
        simp only [List.length_cons] at hlen
        omega
      simp only [splitIntoBatches, hbs0, if_false, List.flatten_cons]
      rw [ih _ hd]
      exact List.take_append_drop bs (x :: xs)

theorem writeLoop_ok_true (ue : Bool) :
    ∀ (chunks : List (List Doc)) (ix : FaissIndex) (vid : Nat)
      (ns : List Doc) (ix' : FaissIndex) (ns' : List Doc),
      writeLoop true ue chunks ix vid ns = .ok (ix', ns') →
      ix' = ⟨ix.d, ix.vectors ++ chunks.flatten.map (fun d => d.embedding.getD [])⟩ ∧
      sqlWriteMany ue ns (stampFrom vid chunks.flatten) = .ok ns' := by
  intro chunks
  induction chunks with
  | nil =>
    intro ix vid ns ix' ns' h
    simp only [writeLoop] at h
    injection h with h'
    cases h'
    exact ⟨by simp, rfl⟩
  | cons chunk rest ih =>
    intro ix vid ns ix' ns' h
    simp only [writeLoop, if_true] at h
    cases hnp : npStack (chunk.map (fun x => x.embedding)) with
    | error e => simp [hnp] at h
    | ok rows =>
      simp only [hnp] at h
      cases hadd : ix.add rows with
      | error e => simp [hadd] at h
      | ok ixm =>
        simp only [hadd] at h
        cases hsql : sqlWriteMany ue ns (stampFrom vid chunk) with
        | error e => simp [hsql] at h
        | ok nsm =>
          simp only [hsql] at h
          obtain ⟨hix, hns⟩ := ih ixm (vid + chunk.length) nsm ix' ns' h
          have hrows := npStack_ok _ _ hnp
          have hixm := add_ok _ _ _ hadd
          constructor
          · rw [hix, hixm]
            simp only [hrows, List.flatten_cons, List.map_append, List.map_map,
              List.append_assoc]
            rfl
          · rw [List.flatten_cons, stampFrom_append, sqlWriteMany_append, hsql]
            exact hns

theorem writeLoop_ok_false (ue : Bool) :
    ∀ (chunks : List (List Doc)) (ix : FaissIndex) (vid : Nat)
      (ns : List Doc) (ix' : FaissIndex) (ns' : List Doc),
      writeLoop false ue chunks ix vid ns = .ok (ix', ns') →
      ix' = ix ∧ sqlWriteMany ue ns chunks.flatten = .ok ns' := by
  intro chunks
  induction chunks with
  | nil =>
    intro ix vid ns ix' ns' h
    simp only [writeLoop] at h
    injection h with h'
    cases h'
    exact ⟨rfl, rfl⟩
  | cons chunk rest ih =>
    intro ix vid ns ix' ns' h
    simp only [writeLoop, if_false, Bool.false_eq_true] at h
    cases hsql : sqlWriteMany ue ns chunk with
    | error e => simp [hsql] at h
    | ok nsm =>
      simp only [hsql] at h
      obtain ⟨hix, hns⟩ := ih ix vid nsm ix' ns' h
      refine ⟨hix, ?_⟩
      rw [List.flatten_cons, sqlWriteMany_append, hsql]
      exact hns

theorem write_documents_ok_spec (st st' : Store) (d0 : Doc) (ds : List Doc)
    (io : Option String) (bs : Nat)
    (hok : write_documents st (d0 :: ds) io bs = .ok st') :
    (d0.embedding.isSome = true →
      faissAt st' (io.getD st.index)
        = some ⟨dAt st (io.getD st.index),
            vectorsAt st (io.getD st.index)
              ++ (d0 :: ds).map (fun d => d.embedding.getD [])⟩ ∧
      sqlWriteMany st.update_existing_documents (sqlNs st (io.getD st.index))
        (stampFrom (ntotalAt st (io.getD st.index)) (d0 :: ds))
        = .ok (sqlNs st' (io.getD st.index))) ∧
    (d0.embedding.isSome = false →
      faissAt st' (io.getD st.index)
        = some ⟨dAt st (io.getD st.index), vectorsAt st (io.getD st.index)⟩ ∧
      sqlWriteMany st.update_existing_documents (sqlNs st (io.getD st.index))
        (d0 :: ds) = .ok (sqlNs st' (io.getD st.index))) := by
  simp only [write_documents] at hok
  split at hok
  · exact absurd hok (by simp)
  next hbs0 =>
  have hbs : 1 ≤ bs := by omega
  split at hok
  next halk => exact absurd hok (by simp)
  next ix halk =>
    split at hok
    next e hwl => exact absurd hok (by simp)
    next ixw nsw hwl =>
      injection hok with hok
      have hfa' : faissAt st' (io.getD st.index) = some ixw := by
        rw [← hok]
        simpa [faissAt] using alookup_aset_self _ _ _
      have hsql' : sqlNs st' (io.getD st.index) = nsw := by
        rw [← hok]
        simpa [sqlNs] using congrArg (Option.getD · []) (alookup_aset_self st.sql _ nsw)
      have hflat : (splitIntoBatches bs (d0 :: ds).length (d0 :: ds)).flatten = d0 :: ds :=
        flatten_splitIntoBatches bs hbs _ _ le_rfl
      have hixfacts : ix.d = dAt st (io.getD st.index)
          ∧ ix.vectors = vectorsAt st (io.getD st.index)
          ∧ ix.ntotal = ntotalAt st (io.getD st.index) := by
        by_cases hreg : (alookup (io.getD st.index) st.faiss_indexes).isSome
        · rw [if_pos hreg] at halk
          have : faissAt st (io.getD st.index) = some ix := halk
          simp [dAt, vectorsAt, ntotalAt, this]
        · rw [if_neg hreg] at halk
          rw [alookup_aset_self] at halk
          injection halk with halk
          have hnone : faissAt st (io.getD st.index) = none := by
            simpa [faissAt, Option.isNone_iff_eq_none] using
              Option.not_isSome_iff_eq_none.mp hreg
          subst halk
          simp [dAt, vectorsAt, ntotalAt, hnone, newIndex, FaissIndex.ntotal]
      obtain ⟨hd, hv, hn⟩ := hixfacts
      constructor
      · intro hA
        rw [hA] at hwl
        obtain ⟨hix, hns⟩ := writeLoop_ok_true _ _ _ _ _ _ _ hwl
        constructor
        · rw [hfa', hix, hflat, hd, hv]
        · rw [hsql', ← hns, hn, hflat]
      · intro hA
        rw [hA] at hwl
        obtain ⟨hix, hns⟩ := writeLoop_ok_false _ _ _ _ _ _ _ hwl
        constructor
        · rw [hfa', hix, ← hd, ← hv]
        · rw [hsql', ← hns, hflat]

/-! ### Claims -/

/-- C1: after a successful `write_documents` of `N` embedding-bearing
documents on a namespace whose index has size `S`, the FAISS index size is
`S + N`; the documents handed to the metadata write are the input documents
stamped with vector ids `S, S+1, …, S+N-1` in input order, so every written
document's vector id lies in `[S, S+N)` and no two share one. -/
theorem c1_write_assigns_sequential_vector_ids
    (st st' : Store) (docs : List Doc) (io : Option String) (bs : Nat)
    (hne : docs ≠ [])
    (hemb : ∀ d ∈ docs, d.embedding.isSome = true)
    (hok : write_documents st docs io bs = .ok st') :
    ntotalAt st' (io.getD st.index) = ntotalAt st (io.getD st.index) + docs.length
    ∧ sqlWriteMany st.update_existing_documents (sqlNs st (io.getD st.index))
        (stampFrom (ntotalAt st (io.getD st.index)) docs)
        = .ok (sqlNs st' (io.getD st.index))
    ∧ (stampFrom (ntotalAt st (io.getD st.index)) docs).map (fun d => d.vectorId)
        = (List.range docs.length).map (fun i => some (ntotalAt st (io.getD st.index) + i))
    ∧ (∀ d ∈ stampFrom (ntotalAt st (io.getD st.index)) docs,
        ∃ v, d.vectorId = some v ∧ ntotalAt st (io.getD st.index) ≤ v
          ∧ v < ntotalAt st (io.getD st.index) + docs.length)
    ∧ ((stampFrom (ntotalAt st (io.getD st.index)) docs).map (fun d => d.vectorId)).Nodup := by
  match docs, hne with
  | d0 :: ds, _ =>
    have hA : d0.embedding.isSome = true := hemb d0 (by simp)
    obtain ⟨hfa, hsql⟩ := (write_documents_ok_spec st st' d0 ds io bs hok).1 hA
    refine ⟨?_, hsql, stampFrom_vectorIds _ _, ?_, ?_⟩
    · rw [ntotalAt, hfa]
      simp [FaissIndex.ntotal, ntotalAt_eq_length_vectorsAt]
    · intro d hd
      obtain ⟨i, hi, hvi⟩ := stampFrom_mem _ _ _ hd
      exact ⟨ntotalAt st (io.getD st.index) + i, hvi, by omega, by omega⟩
    · rw [stampFrom_vectorIds]
      exact (List.nodup_range _).map (fun i j h => by
        simpa using h)

theorem c1_witness :
    ntotalAt exStoreBC "document" = ntotalAt exStore "document" + 2
    ∧ sqlWriteMany exStore.update_existing_documents (sqlNs exStore "document")
        (stampFrom (ntotalAt exStore "document") [docB, docC])
        = .ok (sqlNs exStoreBC "document")
    ∧ (stampFrom (ntotalAt exStore "document") [docB, docC]).map (fun d => d.vectorId)
        = (List.range 2).map (fun i => some (ntotalAt exStore "document" + i))
    ∧ (∀ d ∈ stampFrom (ntotalAt exStore "document") [docB, docC],
        ∃ v, d.vectorId = some v ∧ ntotalAt exStore "document" ≤ v
          ∧ v < ntotalAt exStore "document" + 2)
    ∧ ((stampFrom (ntotalAt exStore "document") [docB, docC]).map (fun d => d.vectorId)).Nodup :=
  c1_write_assigns_sequential_vector_ids exStore exStoreBC [docB, docC] none 10000
    (by decide) (by decide) (by decide)

/-- C3 counterexample: in the batch `[docA, docC]` the second document
carries an embedding, yet the successful write stamps no vector id on any
written document and leaves the index at size 0 — refuting "if any document
in the batch carries an embedding then all documents in the batch are
treated as embedding-bearing". -/
theorem c3_counterexample :
    docC.embedding.isSome = true
    ∧ write_documents exStore [docA, docC] none 10000 = .ok exStoreAC
    ∧ (∀ d ∈ sqlNs exStoreAC "document", d.vectorId = none)
    ∧ ntotalAt exStoreAC "document" = 0 := by decide

/-- C3 (amended): whether the batch is treated as embedding-bearing is
determined once, from the first document alone.  If the first document
carries an embedding, every document of a successful batch is stamped with
a running vector id and the index grows by the batch size; if it does not,
no document is stamped and the index size is unchanged — regardless of
whether later documents carry embeddings. -/
theorem c3_first_document_decides
    (st st' : Store) (d0 : Doc) (ds : List Doc) (io : Option String) (bs : Nat)
    (hok : write_documents st (d0 :: ds) io bs = .ok st') :
    (d0.embedding.isSome = true →
      ntotalAt st' (io.getD st.index)
        = ntotalAt st (io.getD st.index) + (d0 :: ds).length
      ∧ sqlWriteMany st.update_existing_documents (sqlNs st (io.getD st.index))
          (stampFrom (ntotalAt st (io.getD st.index)) (d0 :: ds))
          = .ok (sqlNs st' (io.getD st.index)))
    ∧ (d0.embedding.isSome = false →
      ntotalAt st' (io.getD st.index) = ntotalAt st (io.getD st.index)
      ∧ sqlWriteMany st.update_existing_documents (sqlNs st (io.getD st.index))
          (d0 :: ds) = .ok (sqlNs st' (io.getD st.index))) := by
  obtain ⟨htrue, hfalse⟩ := write_documents_ok_spec st st' d0 ds io bs hok
  constructor
  · intro hA
    obtain ⟨hfa, hsql⟩ := htrue hA
    refine ⟨?_, hsql⟩
    rw [ntotalAt, hfa]
    simp [FaissIndex.ntotal, ntotalAt_eq_length_vectorsAt]
  · intro hA
    obtain ⟨hfa, hsql⟩ := hfalse hA
    refine ⟨?_, hsql⟩
    rw [ntotalAt, hfa]
    simp [FaissIndex.ntotal, ntotalAt_eq_length_vectorsAt]

theorem c3_witness :
    (docC.embedding.isSome = true →
      ntotalAt exStoreC "document" = ntotalAt exStore "document" + 1
      ∧ sqlWriteMany exStore.update_existing_documents (sqlNs exStore "document")
          (stampFrom (ntotalAt exStore "document") [docC])
          = .ok (sqlNs exStoreC "document"))
    ∧ (docC.embedding.isSome = false →
      ntotalAt exStoreC "document" = ntotalAt exStore "document"
      ∧ sqlWriteMany exStore.update_existing_documents (sqlNs exStore "document")
          [docC] = .ok (sqlNs exStoreC "document")) :=
  c3_first_document_decides exStore exStoreC docC [] none 10000 (by decide)

/-- C10: a successful `write_documents` whose first document carries no
embedding leaves the namespace's FAISS index untouched (same vectors, same
size) and forwards the batch to the metadata write exactly as given — no
document gets a vector id stamped. -/
theorem c10_bare_first_document_frame
    (st st' : Store) (d0 : Doc) (ds : List Doc) (io : Option String) (bs : Nat)
    (h0 : d0.embedding = none)
    (hok : write_documents st (d0 :: ds) io bs = .ok st') :
    vectorsAt st' (io.getD st.index) = vectorsAt st (io.getD st.index)
    ∧ ntotalAt st' (io.getD st.index) = ntotalAt st (io.getD st.index)
    ∧ sqlWriteMany st.update_existing_documents (sqlNs st (io.getD st.index))
        (d0 :: ds) = .ok (sqlNs st' (io.getD st.index)) := by
  have hA : d0.embedding.isSome = false := by rw [h0]; rfl
  obtain ⟨hfa, hsql⟩ := (write_documents_ok_spec st st' d0 ds io bs hok).2 hA
  refine ⟨?_, ?_, hsql⟩
  · rw [vectorsAt, hfa]
    rfl
  · rw [ntotalAt, hfa]
    simp [FaissIndex.ntotal, ntotalAt_eq_length_vectorsAt]

theorem c10_witness :
    vectorsAt exStoreAC "document" = vectorsAt exStore "document"
    ∧ ntotalAt exStoreAC "document" = ntotalAt exStore "document"
    ∧ sqlWriteMany exStore.update_existing_documents (sqlNs exStore "document")
        [docA, docC] = .ok (sqlNs exStoreAC "document") :=
  c10_bare_first_document_frame exStore exStoreAC docA [docC] none 10000
    (by decide) (by decide)

/-- C4 counterexample: constructing with `similarity="cosine"` does fail
with the configuration `ValueError`, but the ordered construction trace is
`[createdIndex, raisedSimilarity]` — the ANN index was built and registered
*before* the error was raised, refuting "fails … before any index is built /
before any index construction side effect occurs". -/
theorem c4_counterexample :
    (initRun 768 "Flat" none false false "document" "cosine").1
      = [InitEvent.createdIndex, InitEvent.raisedSimilarity]
    ∧ (initRun 768 "Flat" none false false "document" "cosine").2
      = .error (.valueError
        "The FAISS document store can currently only support dot_product similarity.")
    ∧ PyErr.isConfigErr (.valueError
        "The FAISS document store can currently only support dot_product similarity.")
      = true := by
  decide

/-- C4 (amended): construction with any similarity other than
`"dot_product"` fails with the configuration `ValueError`, but only *after*
the ANN index for the namespace has been created (or a provided index
registered): the index-construction step precedes the raise in the trace. -/
theorem c4_similarity_error_after_index_build
    (vd : Nat) (factory : String) (fi : Option FaissIndex) (re ue : Bool)
    (idx sim : String) (hsim : sim ≠ "dot_product") :
    (initRun vd factory fi re ue idx sim).2
      = .error (.valueError
        "The FAISS document store can currently only support dot_product similarity.")
    ∧ (initRun vd factory fi re ue idx sim).1
      = (match fi with
         | some _ => [InitEvent.registeredProvidedIndex]
         | none => [InitEvent.createdIndex]) ++ [InitEvent.raisedSimilarity] := by
  unfold initRun
  cases fi <;> simp [hsim]

theorem c4_witness :
    (initRun 4 "Flat" none true false "document" "cosine").2
      = .error (.valueError
        "The FAISS document store can currently only support dot_product similarity.")
    ∧ (initRun 4 "Flat" none true false "document" "cosine").1
      = (match (none : Option FaissIndex) with
         | some _ => [InitEvent.registeredProvidedIndex]
         | none => [InitEvent.createdIndex]) ++ [InitEvent.raisedSimilarity] :=
  c4_similarity_error_after_index_build 4 "Flat" none true false "document" "cosine"
    (by decide)

/-- C5 counterexample: calling `train_index` with neither documents nor
embeddings raises nothing at all — the call returns with the store
unchanged — refuting "supplying neither also raises a configuration
error". -/
theorem c5_counterexample :
    train_index exStore none none none = .ok exStore := by decide

/-- C5 (amended): supplying both documents and embeddings raises an error
whenever the embeddings array is not numpy-falsy (i.e. unless it is empty
or a single zero element: `if embeddings and documents` evaluates the numpy
truthiness of `embeddings` first, which itself raises on arrays of more
than one element); supplying neither is a silent no-op, not an error. -/
theorem c5_both_raises_neither_noop :
    (∀ (st : Store) (io : Option String), train_index st none none io = .ok st)
    ∧ (∀ (st : Store) (ds : List Doc) (es : List (List Int)) (io : Option String),
        ds ≠ [] → pyTruthyNp (some es) ≠ .ok false →
        ∃ e, train_index st (some ds) (some es) io = .error e) := by
  constructor
  · intro st io
    rfl
  · intro st ds es io hds hne
    cases hp : pyTruthyNp (some es) with
    | error e =>
      exact ⟨e, by simp [train_index, hp]⟩
    | ok b =>
      cases b with
      | false => exact absurd hp hne
      | true =>
        refine ⟨.valueError "Either pass `documents` or `embeddings`. You passed both.", ?_⟩
        have hde : ds.isEmpty = false := by
          cases ds with
          | nil => exact absurd rfl hds
          | cons x xs => rfl
        simp [train_index, hp, hde]

theorem c5_witness :
    train_index exStore none none (some "document") = .ok exStore
    ∧ ∃ e, train_index exStore (some [docB]) (some [[5, 5]]) none = .error e :=
  ⟨c5_both_raises_neither_noop.1 exStore (some "document"),
   c5_both_raises_neither_noop.2 exStore [docB] [[5, 5]] none
     (by decide) (by decide)⟩

/-- C6 counterexample: a namespace holding one document already stamped
with a vector id, called with `update_existing_embeddings = false` and no
filter.  The count claim C6 describes (filter-scoped, restricted to
documents lacking a `vector_id`) is 0, yet the call does not take the
warned no-op path: it returns with the warning flag `false` (the count the
code actually uses is the unscoped total document count, here 1). -/
theorem c6_counterexample :
    specEligibleCount exStoreA0 "document" none false = 0
    ∧ (sqlNs exStoreA0 "document").length = 1
    ∧ update_embeddings exStoreA0 (fun _ => [1, 0]) none false none 10
        = .ok (exStoreA0, false) := by
  decide

/-- C6 (amended): the count `update_embeddings` uses to decide the warned
no-op case is the namespace's *total* document count, unscoped by the
filter and not restricted to documents lacking a vector id: the warning is
logged exactly when that total count is zero, in which case the store is
returned unchanged.  When the claim's scoped eligible count is zero the
call still changes nothing (the eligible query is empty), but without the
warning unless the total count is also zero. -/
theorem c6_unscoped_count_decides_noop
    (st : Store) (embed : Doc → List Int) (io : Option String) (ue : Bool)
    (filters : Option (List (String × List String))) (bs : Nat)
    (st' : Store) (w : Bool)
    (hok : update_embeddings st embed io ue filters bs = .ok (st', w)) :
    (w = true ↔ (sqlNs st (io.getD st.index)).length = 0)
    ∧ (w = true → st' = st)
    ∧ (specEligibleCount st (io.getD st.index) filters ue = 0 →
        faissAt st' (io.getD st.index) = faissAt st (io.getD st.index)
        ∧ sqlNs st' (io.getD st.index) = sqlNs st (io.getD st.index)) := by
  simp only [update_embeddings] at hok
  split at hok
  · exact absurd hok (by simp)
  next ix halk =>
    split at hok
    next hzero =>
      injection hok with hok
      injection hok with hok1 hok2
      subst hok1
      refine ⟨by simp [hok2.symm, hzero], fun _ => rfl, fun _ => ⟨rfl, rfl⟩⟩
    next hzero =>
      split at hok
      next e hup => exact absurd hok (by simp)
      next ix2 ns2 hup =>
        injection hok with hok
        injection hok with hok1 hok2
        refine ⟨by simp [hok2.symm, hzero], by simp [hok2.symm], ?_⟩
        intro hc
        have hq : sqlQuery (sqlNs st (io.getD st.index)) filters (!ue) = [] := by
          have : sqlQuery (sqlNs st (io.getD st.index)) filters (!ue)
              = (sqlNs st (io.getD st.index)).filter (fun d => metaMatches filters d
                  && (ue || d.vectorId.isNone)) := by
            unfold sqlQuery
            exact List.filter_congr (fun d _ => by simp)
          rw [this]
          unfold specEligibleCount at hc
          exact List.length_eq_zero.mp hc
        rw [hq] at hup
        simp only [splitIntoBatches, updateLoop] at hup
        injection hup with hup
        injection hup with hup1 hup2
        subst hok1
        constructor
        · rw [faissAt]
          show alookup (io.getD st.index)
            (aset st.faiss_indexes (io.getD st.index) ix2) = faissAt st (io.getD st.index)
          rw [alookup_aset_self, ← hup1, ← halk]
          rfl
        · rw [sqlNs]
          show (alookup (io.getD st.index)
            (aset st.sql (io.getD st.index) ns2)).getD [] = sqlNs st (io.getD st.index)
          rw [alookup_aset_self, ← hup2]
          rfl

theorem npStack_ok_of (embs : List (Option (List Int))) (L : Nat)
    (h : ∀ e ∈ embs, ∃ v, e = some v ∧ v.length = L) :
    npStack embs = .ok (embs.map (fun e => e.getD [])) := by
  have hlen : ∀ r ∈ embs.map (fun e => e.getD []), r.length = L := by
    intro r hr
    rw [List.mem_map] at hr
    obtain ⟨e, he, rfl⟩ := hr
    obtain ⟨v, hv, hL⟩ := h e he
    simp [hv, hL]
  unfold npStack
  have hnone : (embs.any (fun e => e.isNone)) = false := by
    rw [List.any_eq_false]
    intro e he
    obtain ⟨v, hv, _⟩ := h e he
    simp [hv]
  rw [hnone, if_neg (by simp)]
  split
  next heq => rw [heq]
  next r0 rs heq =>
    rw [if_pos, heq]
    rw [List.all_eq_true]
    intro r hr
    have h1 : r.length = L := hlen r (heq ▸ hr)
    have h2 : r0.length = L := hlen r0 (heq ▸ List.mem_cons_self r0 rs)
    simp [h1, h2]

theorem add_error_of_len (ix : FaissIndex) (rows : List (List Int)) (L : Nat)
    (hne : rows ≠ []) (hall : ∀ r ∈ rows, r.length = L) (hL : L ≠ ix.d) :
    ix.add rows = .error .dimMismatch := by
  unfold FaissIndex.add
  rw [if_neg]
  intro hcontra
  match rows, hne, hall with
  | r :: rs, _, hall =>
    rw [List.all_eq_true] at hcontra
    have h1 := hcontra r (List.mem_cons_self r rs)
    rw [beq_iff_eq] at h1
    exact hL ((hall r (List.mem_cons_self r rs)).symm.trans h1)

theorem c6_witness :
    (true = true ↔ (sqlNs exStore "document").length = 0)
    ∧ (true = true → exStore = exStore)
    ∧ (specEligibleCount exStore "document" none true = 0 →
        faissAt exStore "document" = faissAt exStore "document"
        ∧ sqlNs exStore "document" = sqlNs exStore "document") :=
  c6_unscoped_count_decides_noop exStore (fun _ => [1, 0]) none true none 10
    exStore true (by decide)

/-- C7 counterexample: `write_documents` on an empty list fails with the
`IndexError` from the unguarded `document_objects[0]` access — not with a
configuration error as claimed. -/
theorem c7_counterexample :
    write_documents exStore [] none 10000 = .error .indexError
    ∧ PyErr.isConfigErr .indexError = false := by decide

/-- C7 (amended): `write_documents` with an empty documents list fails, but
with the `IndexError` of the unguarded first-document access, and an
embedding dimensionality mismatch fails with the ANN index layer's
dimension error — neither failure is a configuration error. -/
theorem c7_empty_and_dim_failures :
    (∀ (st : Store) (io : Option String) (bs : Nat),
      write_documents st [] io bs = .error .indexError
      ∧ PyErr.isConfigErr .indexError = false)
    ∧ (∀ (st : Store) (d0 : Doc) (ds : List Doc) (io : Option String)
        (bs : Nat) (L : Nat),
        bs ≠ 0 →
        (∀ d ∈ d0 :: ds, ∃ e, d.embedding = some e ∧ e.length = L) →
        L ≠ dAt st (io.getD st.index) →
        write_documents st (d0 :: ds) io bs = .error .dimMismatch
        ∧ PyErr.isConfigErr .dimMismatch = false) := by
  constructor
  · intro st io bs
    exact ⟨rfl, rfl⟩
  · intro st d0 ds io bs L hbs hemb hL
    refine ⟨?_, rfl⟩
    have hA : d0.embedding.isSome = true := by
      obtain ⟨e, he, _⟩ := hemb d0 (List.mem_cons_self d0 ds)
      simp [he]
    simp only [write_documents, hA]
    rw [if_neg hbs]
    split
    next halk =>
      exfalso
      by_cases hreg : (alookup (io.getD st.index) st.faiss_indexes).isSome
      · rw [if_pos hreg] at halk
        rw [Option.isSome_iff_exists] at hreg
        obtain ⟨v, hv⟩ := hreg
        rw [hv] at halk
        exact Option.noConfusion halk
      · rw [if_neg hreg, alookup_aset_self] at halk
        exact Option.noConfusion halk
    next ix halk =>
      have hixd : ix.d = dAt st (io.getD st.index) := by
        by_cases hreg : (alookup (io.getD st.index) st.faiss_indexes).isSome
        · rw [if_pos hreg] at halk
          have : faissAt st (io.getD st.index) = some ix := halk
          simp [dAt, this]
        · rw [if_neg hreg, alookup_aset_self] at halk
          injection halk with halk
          have hnone : faissAt st (io.getD st.index) = none :=
            Option.not_isSome_iff_eq_none.mp hreg
          subst halk
          simp [dAt, hnone, newIndex]
      obtain ⟨m, rfl⟩ : ∃ m, bs = m + 1 := ⟨bs - 1, by omega⟩
      have hsplit : splitIntoBatches (m + 1) (d0 :: ds).length (d0 :: ds)
          = (d0 :: ds.take m) :: splitIntoBatches (m + 1)
              ds.length ((d0 :: ds).drop (m + 1)) := by
        show splitIntoBatches (m + 1) (ds.length + 1) (d0 :: ds) = _
        simp only [splitIntoBatches]
        rw [if_neg (by omega)]
        rfl
      rw [hsplit]
      have hchunk : ∀ d ∈ d0 :: ds.take m, ∃ e, d.embedding = some e ∧ e.length = L := by
        intro d hd
        rcases List.mem_cons.mp hd with hd | hd
        · exact hemb d (hd ▸ List.mem_cons_self d0 ds)
        · exact hemb d (List.mem_cons_of_mem d0 (List.take_subset m ds hd))
      have hnp : npStack ((d0 :: ds.take m).map (fun x => x.embedding))
          = .ok (((d0 :: ds.take m).map (fun x => x.embedding)).map (fun e => e.getD [])) := by
        refine npStack_ok_of _ L ?_
        intro e he
        rw [List.mem_map] at he
        obtain ⟨d, hd, rfl⟩ := he
        exact hchunk d hd
      have hadderr : ix.add (((d0 :: ds.take m).map (fun x => x.embedding)).map
          (fun e => e.getD [])) = .error .dimMismatch := by
        refine add_error_of_len _ _ L (by simp) ?_ (hixd ▸ hL)
        intro r hr
        rw [List.map_map, List.mem_map] at hr
        obtain ⟨d, hd, rfl⟩ := hr
        obtain ⟨e, he, hLe⟩ := hchunk d hd
        simp [Function.comp, he, hLe]
      simp only [writeLoop, if_true, hnp, hadderr]

theorem c7_witness :
    (write_documents exStore [] none 5 = .error .indexError
      ∧ PyErr.isConfigErr .indexError = false)
    ∧ (write_documents exStore [docE3] none 5 = .error .dimMismatch
      ∧ PyErr.isConfigErr .dimMismatch = false) :=
  ⟨c7_empty_and_dim_failures.1 exStore none 5,
   c7_empty_and_dim_failures.2 exStore docE3 [] none 5 3
     (by decide) (by decide) (by decide)⟩

/-- C9: `get_all_documents` with any index name, filter, return-embedding
flag and batch size returns exactly the materialization of
`get_all_documents_generator` called with the same arguments — same
documents, same order, same attached embeddings. -/
theorem c9_get_all_documents_materializes_generator
    (st : Store) (io : Option String)
    (filters : Option (List (String × List String)))
    (re : Option Bool) (bs : Nat) :
    get_all_documents st io filters re bs
      = get_all_documents_generator st io filters re bs :=
  rfl

/-! ### Lemmas about `mapME` and score attachment -/

theorem mapME_ok_forall₂ {α β : Type} {f : α → Except PyErr β} :
    ∀ {l : List α} {out : List β}, mapME f l = .ok out →
      List.Forall₂ (fun a b => f a = .ok b) l out := by
  intro l
  induction l with
  | nil =>
    intro out h
    simp only [mapME] at h
    injection h with h
    rw [← h]
    exact List.Forall₂.nil
  | cons a as ih =>
    intro out h
    simp only [mapME] at h
    cases hfa : f a with
    | error e => rw [hfa] at h; exact absurd h (by simp)
    | ok b =>
      rw [hfa] at h
      cases hrest : mapME f as with
      | error e => rw [hrest] at h; exact absurd h (by simp)
      | ok bs =>
        rw [hrest] at h
        injection h with h
        rw [← h]
        exact List.Forall₂.cons hfa (ih hrest)

theorem forall₂_exists_left {α β : Type} {R : α → β → Prop} :
    ∀ {l₁ : List α} {l₂ : List β},
      List.Forall₂ R l₁ l₂ → ∀ b ∈ l₂, ∃ a ∈ l₁, R a b := by
  intro l₁ l₂ h
  induction h with
  | nil => intro b hb; simp at hb
  | cons hr _ ih =>
    intro b hb
    rcases List.mem_cons.mp hb with hb | hb
    · exact ⟨_, List.mem_cons_self _ _, hb ▸ hr⟩
    · obtain ⟨a, ha, har⟩ := ih b hb
      exact ⟨a, List.mem_cons_of_mem _ ha, har⟩

theorem attachScore_ok (pairs : List (Int × Int)) (re : Bool) (ix : FaissIndex)
    (a b : Doc) (h : attachScore pairs re ix a = .ok b) :
    ∃ w s, a.vectorId = some w ∧ dictLookup pairs (w : Int) = some s
      ∧ b.vectorId = some w ∧ b.score = some s := by
  unfold attachScore at h
  split at h
  · exact absurd h (by simp)
  next w hv =>
    split at h
    · exact absurd h (by simp)
    next s hd =>
      refine ⟨w, s, hv, hd, ?_⟩
      split at h
      · split at h
        next vec hr =>
          injection h with h
          rw [← h]
          exact ⟨hv, rfl⟩
        next hr => exact absurd h (by simp)
      · injection h with h
        rw [← h]
        exact ⟨hv, rfl⟩

/-! ### C8: the probability transform -/

theorem expit_mem_Ioo (x : ℝ) : expit x ∈ Set.Ioo (0 : ℝ) 1 := by
  have hp : (0 : ℝ) < 1 + Real.exp (-x) := by positivity
  constructor
  · exact div_pos one_pos hp
  · rw [expit, div_lt_one hp]
    have := Real.exp_pos (-x)
    linarith

theorem expit_strictMono : StrictMono expit := by
  intro a b hab
  have h1 : Real.exp (-b) < Real.exp (-a) := Real.exp_lt_exp.mpr (by linarith)
  unfold expit
  exact one_div_lt_one_div_of_lt (by positivity) (by linarith)

/-- C8: the probability attached to every returned document is the logistic
function applied to `score / 100` — a strictly monotone map into `(0, 1)` —
and every document returned by a successful `query_by_embedding` carries a
score for it to apply to; in particular a score of `1.0` yields
`sigmoid(0.01) ≈ 0.5025` (within `10⁻³`). -/
theorem c8_probability_logistic :
    StrictMono expit
    ∧ (∀ s : Int, attachedProbability s = expit ((s : ℝ) / 100)
        ∧ attachedProbability s ∈ Set.Ioo (0 : ℝ) 1)
    ∧ (∀ (st : Store) (q : List Int)
        (f : Option (List (String × List String))) (k : Nat)
        (io : Option String) (ro : Option Bool) (docs : List Doc),
        query_by_embedding st q f k io ro = .ok docs →
        ∀ d ∈ docs, d.score.isSome = true)
    ∧ |attachedProbability 1 - 0.5025| < 1 / 1000 := by
  refine ⟨expit_strictMono, fun s => ⟨rfl, expit_mem_Ioo _⟩, ?_, ?_⟩
  · intro st q f k io ro docs hok d hd
    simp only [query_by_embedding] at hok
    split at hok
    · exact absurd hok (by simp)
    next ix halk =>
      split at hok
      · exact absurd hok (by simp)
      · have h2 := mapME_ok_forall₂ hok
        obtain ⟨a, _, hab⟩ := forall₂_exists_left h2 d hd
        obtain ⟨w, s, _, _, _, hbs⟩ := attachScore_ok _ _ _ _ _ hab
        rw [hbs]
        rfl
  · have hprob : attachedProbability 1 = expit (1 / 100) := by
      unfold attachedProbability
      norm_num
    rw [hprob]
    set t := Real.exp (-(1 / 100 : ℝ)) with ht
    have hexp1 : (1 : ℝ) / 100 + 1 ≤ Real.exp (1 / 100) := Real.add_one_le_exp _
    have hexp2 : -(1 / 100 : ℝ) + 1 ≤ t := Real.add_one_le_exp _
    have htpos : 0 < t := Real.exp_pos _
    have ht2 : t ≤ (1.01 : ℝ)⁻¹ := by
      rw [ht, Real.exp_neg]
      apply inv_anti₀ (by norm_num)
      linarith
    have hlow : (0.99 : ℝ) ≤ t := by linarith
    have hone : expit (1 / 100) = 1 / (1 + t) := rfl
    have hd1 : (0 : ℝ) < 1 + t := by linarith
    have hup : expit (1 / 100) ≤ 1 / (1.99 : ℝ) := by
      rw [hone]
      apply one_div_le_one_div_of_le (by norm_num)
      linarith
    have hdown : 1 / (1 + (1.01 : ℝ)⁻¹) ≤ expit (1 / 100) := by
      rw [hone]
      apply one_div_le_one_div_of_le hd1
      linarith
    rw [abs_lt]
    constructor
    · have : (1 : ℝ) / (1 + (1.01 : ℝ)⁻¹) > 0.5015 := by norm_num
      linarith
    · have : (1 : ℝ) / 1.99 < 0.5035 := by norm_num
      linarith

theorem c8_witness :
    (∀ d ∈ [(⟨"a", "text a", [], some 0, none, some 1⟩ : Doc)], d.score.isSome = true)
    ∧ |attachedProbability 1 - 0.5025| < 1 / 1000 :=
  ⟨c8_probability_logistic.2.2.1 exStoreA0 [1, 0] none 3 none none
      [⟨"a", "text a", [], some 0, none, some 1⟩] (by decide),
   c8_probability_logistic.2.2.2⟩

/-! ### C2: search and resolution lemmas -/

theorem searchSorted_length (ix : FaissIndex) (q : List Int) :
    (searchSorted ix q).length = ix.ntotal := by
  simp [searchSorted, searchBase, List.length_insertionSort, FaissIndex.ntotal]

theorem searchBase_map_snd (ix : FaissIndex) (q : List Int) :
    (searchBase ix q).map Prod.snd = (List.range ix.ntotal).map Int.ofNat := by
  unfold searchBase FaissIndex.ntotal
  rw [List.map_map]
  rw [show (Prod.snd ∘ fun p : Nat × List Int => (ipScore q p.2, (p.1 : Int)))
      = fun p : Nat × List Int => Int.ofNat (Prod.fst p) from rfl]
  rw [show (fun p : Nat × List Int => Int.ofNat (Prod.fst p))
      = Int.ofNat ∘ Prod.fst from rfl]
  rw [← List.map_map, List.enum_map_fst]

theorem searchSorted_map_snd_perm (ix : FaissIndex) (q : List Int) :
    List.Perm ((searchSorted ix q).map Prod.snd)
      ((List.range ix.ntotal).map Int.ofNat) := by
  rw [← searchBase_map_snd]
  exact (List.perm_insertionSort searchRel (searchBase ix q)).map Prod.snd

theorem searchSorted_snd_mem (ix : FaissIndex) (q : List Int) (v : Int)
    (hv : v ∈ (searchSorted ix q).map Prod.snd) :
    ∃ j : Nat, j < ix.ntotal ∧ v = (j : Int) := by
  have := (searchSorted_map_snd_perm ix q).mem_iff.mp hv
  rw [List.mem_map] at this
  obtain ⟨j, hj, rfl⟩ := this
  exact ⟨j, List.mem_range.mp hj, rfl⟩

theorem searchSorted_snd_nodup (ix : FaissIndex) (q : List Int) :
    ((searchSorted ix q).map Prod.snd).Nodup := by
  refine (searchSorted_map_snd_perm ix q).nodup_iff.mpr ?_
  exact (List.nodup_range _).map (fun a b h => Int.ofNat.inj h)

theorem searchSorted_fst_pairwise (ix : FaissIndex) (q : List Int) :
    ((searchSorted ix q).map Prod.fst).Pairwise (· ≥ ·) := by
  refine List.Pairwise.map Prod.fst ?_ (List.sorted_insertionSort searchRel (searchBase ix q))
  intro a b hab
  rcases hab with h | ⟨h, _⟩
  · exact le_of_lt h
  · exact le_of_eq h.symm

theorem search_eq (ix : FaissIndex) (q : List Int) (k : Nat)
    (hk : ix.ntotal < k) :
    ix.search q k
      = ((searchSorted ix q).map Prod.fst
           ++ List.replicate (k - ix.ntotal) sentinelScore,
         (searchSorted ix q).map Prod.snd
           ++ List.replicate (k - ix.ntotal) (-1)) := by
  unfold FaissIndex.search
  rw [List.take_of_length_le (by rw [searchSorted_length]; omega),
    searchSorted_length]

theorem vids_filter_eq (ix : FaissIndex) (q : List Int) (k : Nat)
    (hk : ix.ntotal < k) :
    ((ix.search q k).2).filter (fun v => v != -1)
      = (searchSorted ix q).map Prod.snd := by
  rw [search_eq ix q k hk]
  dsimp only
  rw [List.filter_append]
  have h1 : ((searchSorted ix q).map Prod.snd).filter (fun v => v != -1)
      = (searchSorted ix q).map Prod.snd := by
    refine List.filter_eq_self.mpr ?_
    intro v hv
    obtain ⟨j, _, rfl⟩ := searchSorted_snd_mem ix q v hv
    simp
  have h2 : (List.replicate (k - ix.ntotal) (-1 : Int)).filter (fun v => v != -1)
      = [] := by
    rw [List.filter_eq_nil_iff]
    intro v hv
    rw [List.eq_of_mem_replicate hv]
    simp
  rw [h1, h2, List.append_nil]

theorem zip_replicate_pair {α β : Type} (m : Nat) (x : α) (y : β) :
    (List.replicate m x).zip (List.replicate m y) = List.replicate m (x, y) := by
  induction m with
  | zero => rfl
  | succ m ih => simp [List.replicate_succ, ih]

theorem pairs_eq (ix : FaissIndex) (q : List Int) (k : Nat)
    (hk : ix.ntotal < k) :
    (ix.search q k).2.zip (ix.search q k).1
      = (searchSorted ix q).map (fun x => (x.2, x.1))
        ++ List.replicate (k - ix.ntotal) (-1, sentinelScore) := by
  rw [search_eq ix q k hk]
  dsimp only
  rw [List.zip_append (by simp), List.zip_map' Prod.snd Prod.fst,
    zip_replicate_pair]

theorem find?_key_unique :
    ∀ (l : List (Int × Int)) (v s : Int), (v, s) ∈ l → (l.map Prod.fst).Nodup →
      l.find? (fun p => p.1 == v) = some (v, s) := by
  intro l
  induction l with
  | nil => intro v s hm _; simp at hm
  | cons p ps ih =>
    intro v s hm hnd
    rw [List.map_cons, List.nodup_cons] at hnd
    rcases List.mem_cons.mp hm with hm | hm
    · subst hm
      rw [List.find?_cons_of_pos _ (by simp)]
    · have hp1 : p.1 ≠ v := by
        intro hcontra
        exact hnd.1 (hcontra ▸ (List.mem_map_of_mem Prod.fst hm))
      rw [List.find?_cons_of_neg _ (by simpa using hp1)]
      exact ih v s hm hnd.2

theorem dictLookup_unique (l : List (Int × Int)) (v s : Int)
    (hm : (v, s) ∈ l) (hnd : (l.map Prod.fst).Nodup) :
    dictLookup l v = some s := by
  unfold dictLookup
  rw [find?_key_unique l.reverse v s (List.mem_reverse.mpr hm)
    (by rw [List.map_reverse]; exact List.nodup_reverse.mpr hnd)]

theorem dictLookup_append_sentinels (front : List (Int × Int)) (m : Nat)
    (v : Int) (hv : v ≠ -1) :
    dictLookup (front ++ List.replicate m (-1, sentinelScore)) v
      = dictLookup front v := by
  unfold dictLookup
  rw [List.reverse_append]
  have : (List.replicate m ((-1 : Int), sentinelScore)).reverse.find?
      (fun p => p.1 == v) = none := by
    rw [List.find?_eq_none]
    intro p hp
    rw [List.mem_reverse] at hp
    rw [List.eq_of_mem_replicate hp]
    simpa using hv.symm
  rw [List.find?_append, this]
  rfl

theorem dictLookup_searchPairs (ix : FaissIndex) (q : List Int) (k : Nat)
    (hk : ix.ntotal < k) (x : Int × Int) (hx : x ∈ searchSorted ix q) :
    dictLookup ((ix.search q k).2.zip (ix.search q k).1) x.2 = some x.1 := by
  rw [pairs_eq ix q k hk]
  obtain ⟨j, _, hji⟩ := searchSorted_snd_mem ix q x.2 (List.mem_map_of_mem _ hx)
  have hvne : x.2 ≠ -1 := by rw [hji]; omega
  rw [dictLookup_append_sentinels _ _ _ hvne]
  refine dictLookup_unique _ _ _ ?_ ?_
  · exact List.mem_map_of_mem (fun y => (y.2, y.1)) hx
  · rw [List.map_map]
    rw [show (Prod.fst ∘ fun y : Int × Int => (y.2, y.1)) = Prod.snd from rfl]
    exact searchSorted_snd_nodup ix q

theorem filter_hasVid_len_le_one (ns : List Doc)
    (huniq : (ns.filterMap (fun d => d.vectorId)).Nodup) (v : Int) :
    (ns.filter (hasVid v)).length ≤ 1 := by
  induction ns with
  | nil => simp
  | cons d ds ih =>
    cases hv : d.vectorId with
    | none =>
      have hno : hasVid v d = false := by simp [hasVid, hv]
      rw [List.filter_cons_of_neg (by simp [hno])]
      refine ih ?_
      simpa only [List.filterMap_cons, hv] using huniq
    | some w =>
      simp only [List.filterMap_cons, hv, List.nodup_cons] at huniq
      cases hvd : hasVid v d with
      | false =>
        rw [List.filter_cons_of_neg (by simp [hvd])]
        exact ih huniq.2
      | true =>
        rw [List.filter_cons_of_pos (by simp [hvd])]
        have hveq : (w : Int) = v := by
          simp only [hasVid, hv, beq_iff_eq] at hvd
          exact hvd
        have hempty : ds.filter (hasVid v) = [] := by
          rw [List.filter_eq_nil_iff]
          intro d' hd' hcontra
          simp only [hasVid] at hcontra
          cases hv' : d'.vectorId with
          | none => rw [hv'] at hcontra; simp at hcontra
          | some w' =>
            rw [hv'] at hcontra
            rw [beq_iff_eq] at hcontra
            have : w' = w := by omega
            subst this
            exact huniq.1 (List.mem_filterMap.mpr ⟨d', hd', hv'⟩)
        rw [hempty]
        simp

theorem mapME_append {α β : Type} (f : α → Except PyErr β) (a b : List α) :
    mapME f (a ++ b)
      = match mapME f a with
        | .error e => .error e
        | .ok oa =>
          match mapME f b with
          | .error e => .error e
          | .ok ob => .ok (oa ++ ob) := by
  induction a with
  | nil =>
    simp only [List.nil_append, mapME]
    cases mapME f b with
    | error e => rfl
    | ok ob => rfl
  | cons x xs ih =>
    simp only [List.cons_append, mapME]
    rw [show mapME f (xs.append b) = mapME f (xs ++ b) from rfl, ih]
    cases f x with
    | error e => rfl
    | ok y =>
      cases mapME f xs with
      | error e => rfl
      | ok oxs =>
        cases mapME f b with
        | error e => rfl
        | ok ob => rfl

theorem resolveAttach_spec (pairs : List (Int × Int)) (re : Bool)
    (ix : FaissIndex) (ns : List Doc)
    (hblock : ∀ v, (ns.filter (hasVid v)).length ≤ 1) :
    ∀ (vs : List (Int × Int)),
      (∀ x ∈ vs, dictLookup pairs x.2 = some x.1) →
      ∀ out, mapME (attachScore pairs re ix)
          ((vs.map (fun x => ns.filter (hasVid x.2))).flatten) = .ok out →
        out.length ≤ vs.length
        ∧ (∀ b ∈ out, ∃ w : Nat, b.vectorId = some w
            ∧ (w : Int) ∈ vs.map Prod.snd ∧ b.score.isSome = true)
        ∧ out.filterMap (fun d => d.score)
          = vs.filterMap (fun x =>
              if ns.filter (hasVid x.2) = [] then none else some x.1) := by
  intro vs
  induction vs with
  | nil =>
    intro _ out h
    simp only [List.map_nil, List.flatten_nil, mapME] at h
    injection h with h
    rw [← h]
    exact ⟨by simp, by simp, by simp⟩
  | cons x vs' ih =>
    intro hsc out h
    have hsc' : ∀ y ∈ vs', dictLookup pairs y.2 = some y.1 :=
      fun y hy => hsc y (List.mem_cons_of_mem x hy)
    rw [List.map_cons, List.flatten_cons, mapME_append] at h
    cases hblk : ns.filter (hasVid x.2) with
    | nil =>
      rw [hblk] at h
      simp only [mapME] at h
      cases hrest : mapME (attachScore pairs re ix)
          ((vs'.map (fun y => ns.filter (hasVid y.2))).flatten) with
      | error e => rw [hrest] at h; exact absurd h (by simp)
      | ok orest =>
        rw [hrest] at h
        injection h with h
        obtain ⟨hl, hm, hs⟩ := ih hsc' orest hrest
        rw [← h]
        refine ⟨by simpa using Nat.le_succ_of_le hl, ?_, ?_⟩
        · intro b hb
          obtain ⟨w, hw1, hw2, hw3⟩ := hm b (by simpa using hb)
          exact ⟨w, hw1, List.mem_cons_of_mem _ hw2, hw3⟩
        · simp only [List.nil_append, hs, List.filterMap_cons]
          rw [if_pos hblk]
    | cons d blk' =>
      have hb1 : (ns.filter (hasVid x.2)).length ≤ 1 := hblock x.2
      rw [hblk] at hb1
      have hblk' : blk' = [] := by
        rw [List.length_cons] at hb1
        exact List.length_eq_zero.mp (by omega)
      subst hblk'
      rw [hblk] at h
      simp only [mapME] at h
      cases hatt : attachScore pairs re ix d with
      | error e => rw [hatt] at h; exact absurd h (by simp)
      | ok b0 =>
        rw [hatt] at h
        cases hrest : mapME (attachScore pairs re ix)
            ((vs'.map (fun y => ns.filter (hasVid y.2))).flatten) with
        | error e => rw [hrest] at h; exact absurd h (by simp)
        | ok orest =>
          rw [hrest] at h
          injection h with h
          obtain ⟨hl, hm, hs⟩ := ih hsc' orest hrest
          have hdmem : d ∈ ns.filter (hasVid x.2) := by rw [hblk]; exact List.mem_cons_self d []
          have hdvid : hasVid x.2 d = true := (List.mem_filter.mp hdmem).2
          obtain ⟨w, s, haw, hds, hbw, hbs⟩ := attachScore_ok pairs re ix d b0 hatt
          have hwx : (w : Int) = x.2 := by
            simp only [hasVid, haw, beq_iff_eq] at hdvid
            exact hdvid
          have hs_eq : s = x.1 := by
            have h1 := hsc x (List.mem_cons_self x vs')
            rw [← hwx] at h1
            rw [h1] at hds
            injection hds with hds
            exact hds.symm
          rw [← h]
          refine ⟨?_, ?_, ?_⟩
          · simpa using Nat.succ_le_succ hl
          · intro b hb
            rcases List.mem_cons.mp (by simpa using hb) with hb | hb
            · exact ⟨w, hb ▸ hbw, by rw [hwx]; exact List.mem_cons_self _ _,
                by rw [hb, hbs]; rfl⟩
            · obtain ⟨w', hw1, hw2, hw3⟩ := hm b hb
              exact ⟨w', hw1, List.mem_cons_of_mem _ hw2, hw3⟩
          · rw [show ([b0] ++ orest) = b0 :: orest from rfl]
            have hgx : (if List.filter (hasVid x.2) ns = [] then none else some x.1)
                = some x.1 := by
              rw [if_neg (by rw [hblk]; simp)]
            have hrhs : List.filterMap
                (fun y : Int × Int => if List.filter (hasVid y.2) ns = [] then none else some y.1)
                (x :: vs')
                = x.1 :: List.filterMap
                  (fun y : Int × Int => if List.filter (hasVid y.2) ns = [] then none
                    else some y.1) vs' :=
              List.filterMap_cons_some hgx
            rw [List.filterMap_cons_some hbs, hrhs, hs_eq, hs]

theorem filterMap_ite_sublist {α β : Type} (l : List α) (c : α → Prop)
    [DecidablePred c] (f : α → β) :
    List.Sublist (l.filterMap (fun a => if c a then none else some (f a)))
      (l.map f) := by
  induction l with
  | nil => exact List.Sublist.refl []
  | cons a as ih =>
    rw [List.filterMap_cons, List.map_cons]
    by_cases hc : c a
    · rw [if_pos hc]
      exact ih.cons (f a)
    · rw [if_neg hc]
      exact ih.cons₂ (f a)

/-- C2: a `query_by_embedding` with `top_k = k` on a namespace whose index
holds fewer than `k` vectors (and whose stored vector ids are consistent,
i.e. no two documents share one) returns fewer than `k` documents; every
returned document corresponds to a real stored vector id (never the `-1`
sentinel padding) and carries a score; and the scores attached to the
returned documents appear in descending order in the returned list. -/
theorem c2_query_underfilled_index
    (st : Store) (q : List Int) (f : Option (List (String × List String)))
    (k : Nat) (io : Option String) (ro : Option Bool)
    (ix : FaissIndex) (docs : List Doc)
    (hix : faissAt st (io.getD st.index) = some ix)
    (hk : ix.ntotal < k)
    (huniq : ((sqlNs st (io.getD st.index)).filterMap (fun d => d.vectorId)).Nodup)
    (hok : query_by_embedding st q f k io ro = .ok docs) :
    docs.length < k
    ∧ (∀ d ∈ docs, ∃ v : Nat, d.vectorId = some v ∧ v < ix.ntotal
        ∧ d.score.isSome = true)
    ∧ (docs.filterMap (fun d => d.score)).Pairwise (· ≥ ·) := by
  simp only [query_by_embedding] at hok
  split at hok
  next halk =>
    rw [faissAt] at hix
    rw [halk] at hix
    exact absurd hix (by simp)
  next ix0 halk =>
    rw [faissAt] at hix
    rw [halk] at hix
    injection hix with hix
    subst hix
    split at hok
    · exact absurd hok (by simp)
    · rw [vids_filter_eq ix0 q k hk] at hok
      unfold getDocumentsByVectorIds at hok
      rw [show ((searchSorted ix0 q).map Prod.snd).map
            (fun v => (sqlNs st (io.getD st.index)).filter (hasVid v))
          = (searchSorted ix0 q).map
            (fun x => (sqlNs st (io.getD st.index)).filter (hasVid x.2)) from by
        rw [List.map_map]; rfl] at hok
      obtain ⟨hlen, hmem, hscores⟩ :=
        resolveAttach_spec _ _ _ _
          (filter_hasVid_len_le_one _ huniq)
          (searchSorted ix0 q)
          (fun x hx => dictLookup_searchPairs ix0 q k hk x hx)
          docs hok
      refine ⟨?_, ?_, ?_⟩
      · have := searchSorted_length ix0 q
        omega
      · intro d hd
        obtain ⟨w, hw1, hw2, hw3⟩ := hmem d hd
        obtain ⟨j, hj, hji⟩ := searchSorted_snd_mem ix0 q _ hw2
        have : w = j := by omega
        exact ⟨w, hw1, by omega, hw3⟩
      · rw [hscores]
        refine List.Pairwise.sublist ?_ (searchSorted_fst_pairwise ix0 q)
        exact filterMap_ite_sublist _ _ _

theorem c2_witness :
    ([(⟨"a", "text a", [], some 0, none, some 1⟩ : Doc)]).length < 3
    ∧ (∀ d ∈ [(⟨"a", "text a", [], some 0, none, some 1⟩ : Doc)],
        ∃ v : Nat, d.vectorId = some v ∧ v < FaissIndex.ntotal ⟨2, [[1, 0]]⟩
          ∧ d.score.isSome = true)
    ∧ (([(⟨"a", "text a", [], some 0, none, some 1⟩ : Doc)]).filterMap
        (fun d => d.score)).Pairwise (· ≥ ·) :=
  c2_query_underfilled_index exStoreA0 [1, 0] none 3 none none ⟨2, [[1, 0]]⟩
    [⟨"a", "text a", [], some 0, none, some 1⟩]
    (by decide) (by decide) (by decide) (by decide)

end HF
